import Mathlib

/-!
Shallow embedding of the Sokoban engine core of `src/exercise_4_3/sokoban.py`
(class `SokobanModel`): the level-text parser, the move operation, the
render-symbol query and the completion query.  Coordinates are integer pairs
`(x, y)`; the Python sets `walls`, `boxes`, `goals` become `Finset (Int × Int)`;
the `player` attribute, which may be unset when no player symbol occurs in the
level text, becomes an `Option (Int × Int)`, and operations that would raise
`AttributeError` on a missing player return `none`.
-/

namespace Sokoban

/-- Python ASCII whitespace, as recognised by `str.strip()` on the characters
that occur in level files. -/
def pySpace (c : Char) : Bool :=
  c = ' ' || c = '\t' || c = '\n' || c = '\r' || c = '\x0b' || c = '\x0c'

/-- Embedding of Python `row.strip()`: removes leading AND trailing
whitespace. -/
def pyStrip (s : List Char) : List Char :=
  ((s.dropWhile pySpace).reverse.dropWhile pySpace).reverse

/-- Trailing-only strip, written from the spec's words ("trailing
whitespace/newline characters on each row must be stripped"); used to compare
the parser's actual behaviour with the specified one. -/
def pyRstrip (s : List Char) : List Char :=
  (s.reverse.dropWhile pySpace).reverse

/-- The display symbols of `class Symbol` in `sokoban.py`. -/
inductive Symbol where
  | BOX
  | BOX_ON_GOAL
  | PLAYER
  | PLAYER_ON_GOAL
  | GOAL
  | WALL
  | FLOOR
deriving DecidableEq

/-- The move outcomes of `class MoveResponse` in `sokoban.py`. -/
inductive MoveResponse where
  | INVALID_WALL
  | INVALID_BOX
  | VALID
deriving DecidableEq

/-- The state of `class SokobanModel`: wall/box/goal coordinate sets, the
`size = [width, height]` pair, and the (possibly unset) player position. -/
structure SokobanModel where
  walls : Finset (Int × Int)
  boxes : Finset (Int × Int)
  goals : Finset (Int × Int)
  size : Int × Int
  player : Option (Int × Int)
deriving DecidableEq

/-- One iteration of the parser's `match symbol` statement on the character at
position `pos`, mirroring the `case` arms of `SokobanModel.__init__`. -/
def parseCell (m : SokobanModel) (pos : Int × Int) (c : Char) : SokobanModel :=
  if c = '$' then { m with boxes := insert pos m.boxes }
  else if c = '*' then { m with boxes := insert pos m.boxes, goals := insert pos m.goals }
  else if c = '@' then { m with player := some pos }
  else if c = '+' then { m with player := some pos, goals := insert pos m.goals }
  else if c = '.' then { m with goals := insert pos m.goals }
  else if c = '#' then { m with walls := insert pos m.walls }
  else m

/-- The parser's inner loop `for x, symbol in enumerate(row_str)`: scans `row`
left to right, the first character at column `x`, all in row `y`. -/
def parseRowAux (y x : Nat) (row : List Char) (m : SokobanModel) : SokobanModel :=
  match row with
  | [] => m
  | c :: rest => parseRowAux y (x + 1) rest (parseCell m ((x : Int), (y : Int)) c)

/-- The parser's outer loop `for y, row in enumerate(level_data)`: each row is
stripped (`row.strip()`) before its characters are indexed. -/
def parseRows (y : Nat) (rows : List (List Char)) (m : SokobanModel) : SokobanModel :=
  match rows with
  | [] => m
  | r :: rest => parseRows (y + 1) rest (parseRowAux y 0 (pyStrip r) m)

/-- Embedding of `SokobanModel.__init__(level_data)`: starts from empty sets and no player,
computes `size = [len(level_data[0].strip()), len(level_data)]` when the input
is non-empty, then scans every row. -/
def SokobanModel.init (level_data : List (List Char)) : SokobanModel :=
  parseRows 0 level_data
    { walls := ∅, boxes := ∅, goals := ∅,
      size :=
        match level_data with
        | [] => (0, 0)
        | r :: _ => (((pyStrip r).length : Int), (level_data.length : Int)),
      player := none }

/-- Embedding of `SokobanModel.is_empty(x, y)`: a cell is empty iff it is neither a wall nor
a box. -/
def SokobanModel.is_empty (m : SokobanModel) (x y : Int) : Bool :=
  if (x, y) ∈ m.walls then false
  else if (x, y) ∈ m.boxes then false
  else true

/-- Embedding of `SokobanModel.width()`, which reads `size[0]`. -/
def SokobanModel.width (m : SokobanModel) : Int := m.size.1

/-- Embedding of `SokobanModel.height()`, which reads `size[1]`. -/
def SokobanModel.height (m : SokobanModel) : Int := m.size.2

/-- Embedding of `SokobanModel.move(dx, dy)`.  When the `player` attribute is unset the
Python call raises `AttributeError`; this is modelled by `none`.  Otherwise the
destination is tried in order: empty cell (player walks in), box with empty
cell behind (the box is relocated, `boxes.remove` then `boxes.add`, and the
player walks in), blocked box, and finally wall. -/
def SokobanModel.move (m : SokobanModel) (dx dy : Int) : Option (SokobanModel × MoveResponse) :=
  match m.player with
  | none => none
  | some (x, y) =>
    let nx := x + dx
    let ny := y + dy
    if m.is_empty nx ny then
      some ({ m with player := some (nx, ny) }, MoveResponse.VALID)
    else if (nx, ny) ∈ m.boxes then
      let nnx := nx + dx
      let nny := ny + dy
      if m.is_empty nnx nny then
        some ({ m with boxes := insert (nnx, nny) (m.boxes.erase (nx, ny)),
                       player := some (nx, ny) }, MoveResponse.VALID)
      else
        some (m, MoveResponse.INVALID_BOX)
    else
      some (m, MoveResponse.INVALID_WALL)

/-- Embedding of `SokobanModel.symbol(x, y)`: goal membership first (box-on-goal, then
player-on-goal, then plain goal), otherwise box, player, wall, floor. -/
def SokobanModel.symbol (m : SokobanModel) (x y : Int) : Symbol :=
  if (x, y) ∈ m.goals then
    if (x, y) ∈ m.boxes then Symbol.BOX_ON_GOAL
    else if m.player = some (x, y) then Symbol.PLAYER_ON_GOAL
    else Symbol.GOAL
  else if (x, y) ∈ m.boxes then Symbol.BOX
  else if m.player = some (x, y) then Symbol.PLAYER
  else if (x, y) ∈ m.walls then Symbol.WALL
  else Symbol.FLOOR

/-- Embedding of `SokobanModel.is_level_complete()`: the first loop returns `False` as soon
as a box is off-goal; the final statement returns
`len(self.boxes) > 0 and all(box_pos in self.goals for box_pos in self.boxes)`. -/
def SokobanModel.is_level_complete (m : SokobanModel) : Bool :=
  if ∃ b ∈ m.boxes, b ∉ m.goals then false
  else decide (0 < m.boxes.card) && decide (∀ b ∈ m.boxes, b ∈ m.goals)

/-- Apply the same `move(dx, dy)` call `n` times in sequence. -/
def SokobanModel.moveN (m : SokobanModel) (dx dy : Int) : Nat → Option SokobanModel
  | 0 => some m
  | n + 1 =>
    match m.move dx dy with
    | none => none
    | some (m', _) => m'.moveN dx dy n

/-- Apply a sequence of `move` calls, one per direction in the list. -/
def SokobanModel.moves (m : SokobanModel) : List (Int × Int) → Option SokobanModel
  | [] => some m
  | d :: rest =>
    match m.move d.1 d.2 with
    | none => none
    | some (m', _) => m'.moves rest

/-- The four unit directions the spec allows for `move`. -/
def isUnitDir (d : Int × Int) : Prop :=
  d = (1, 0) ∨ d = (-1, 0) ∨ d = (0, 1) ∨ d = (0, -1)

instance (d : Int × Int) : Decidable (isUnitDir d) := by
  unfold isUnitDir; infer_instance

/-- The character the parser sees at column `x` of (stripped) row `y`. -/
def charAt (data : List (List Char)) (x y : Nat) : Option Char :=
  (data[y]?).bind (fun r => (pyStrip r)[x]?)

theorem mem_ite_insert {q : Prop} [Decidable q] {a p : Int × Int} {s : Finset (Int × Int)} :
    p ∈ (if q then insert a s else s) ↔ (q ∧ p = a) ∨ p ∈ s := by
  by_cases h : q <;> simp [h]

theorem parseCell_size (m : SokobanModel) (pos : Int × Int) (c : Char) :
    (parseCell m pos c).size = m.size := by
  unfold parseCell; split_ifs <;> rfl

theorem parseCell_walls (m : SokobanModel) (pos : Int × Int) (c : Char) :
    (parseCell m pos c).walls = if c = '#' then insert pos m.walls else m.walls := by
  by_cases h : c = '#'
  · subst h; rw [if_pos rfl]; rfl
  · rw [if_neg h]; unfold parseCell
    split_ifs <;> rfl

theorem parseCell_boxes (m : SokobanModel) (pos : Int × Int) (c : Char) :
    (parseCell m pos c).boxes =
      if c = '$' ∨ c = '*' then insert pos m.boxes else m.boxes := by
  by_cases h1 : c = '$'
  · subst h1
    rw [if_pos (show ('$' : Char) = '$' ∨ ('$' : Char) = '*' from Or.inl rfl)]
    rfl
  · by_cases h2 : c = '*'
    · subst h2
      rw [if_pos (show ('*' : Char) = '$' ∨ ('*' : Char) = '*' from Or.inr rfl)]
      rfl
    · rw [if_neg (show ¬(c = '$' ∨ c = '*') from by simp [h1, h2])]
      unfold parseCell
      split_ifs <;> rfl

theorem parseCell_goals (m : SokobanModel) (pos : Int × Int) (c : Char) :
    (parseCell m pos c).goals =
      if c = '*' ∨ c = '+' ∨ c = '.' then insert pos m.goals else m.goals := by
  by_cases h1 : c = '*'
  · subst h1
    rw [if_pos (show ('*' : Char) = '*' ∨ ('*' : Char) = '+' ∨ ('*' : Char) = '.'
      from Or.inl rfl)]
    rfl
  · by_cases h2 : c = '+'
    · subst h2
      rw [if_pos (show ('+' : Char) = '*' ∨ ('+' : Char) = '+' ∨ ('+' : Char) = '.'
        from Or.inr (Or.inl rfl))]
      rfl
    · by_cases h3 : c = '.'
      · subst h3
        rw [if_pos (show ('.' : Char) = '*' ∨ ('.' : Char) = '+' ∨ ('.' : Char) = '.'
          from Or.inr (Or.inr rfl))]
        rfl
      · rw [if_neg (show ¬(c = '*' ∨ c = '+' ∨ c = '.') from by simp [h1, h2, h3])]
        unfold parseCell
        split_ifs <;> rfl

theorem parseCell_player (m : SokobanModel) (pos : Int × Int) (c : Char) :
    (parseCell m pos c).player =
      if c = '@' ∨ c = '+' then some pos else m.player := by
  by_cases h1 : c = '@'
  · subst h1
    rw [if_pos (show ('@' : Char) = '@' ∨ ('@' : Char) = '+' from Or.inl rfl)]
    rfl
  · by_cases h2 : c = '+'
    · subst h2
      rw [if_pos (show ('+' : Char) = '@' ∨ ('+' : Char) = '+' from Or.inr rfl)]
      rfl
    · rw [if_neg (show ¬(c = '@' ∨ c = '+') from by simp [h1, h2])]
      unfold parseCell
      split_ifs <;> rfl

theorem parseRowAux_mem (f : SokobanModel → Finset (Int × Int)) (pred : Char → Prop)
    [DecidablePred pred]
    (hf : ∀ m pos c, f (parseCell m pos c) = if pred c then insert pos (f m) else f m)
    (y : Nat) :
    ∀ (row : List Char) (x : Nat) (m : SokobanModel) (p : Int × Int),
      p ∈ f (parseRowAux y x row m) ↔
        (∃ i c, row[i]? = some c ∧ pred c ∧ p = (((x + i : Nat) : Int), (y : Int)))
          ∨ p ∈ f m := by
  intro row
  induction row with
  | nil =>
    intro x m p
    simp [parseRowAux]
  | cons c0 rest ih =>
    intro x m p
    rw [show parseRowAux y x (c0 :: rest) m
        = parseRowAux y (x + 1) rest (parseCell m ((x : Int), (y : Int)) c0) from rfl]
    rw [ih (x + 1) (parseCell m ((x : Int), (y : Int)) c0) p, hf, mem_ite_insert]
    constructor
    · rintro (⟨i, c, hi, hc, hp⟩ | ⟨hc, hp⟩ | h)
      · refine Or.inl ⟨i + 1, c, by simpa using hi, hc, ?_⟩
        rw [hp, show x + 1 + i = x + (i + 1) from by omega]
      · exact Or.inl ⟨0, c0, by simp, hc, by rw [hp, Nat.add_zero]⟩
      · exact Or.inr h
    · rintro (⟨i, c, hi, hc, hp⟩ | h)
      · cases i with
        | zero =>
          rw [List.getElem?_cons_zero] at hi
          obtain rfl : c0 = c := Option.some.inj hi
          exact Or.inr (Or.inl ⟨hc, by rw [hp, Nat.add_zero]⟩)
        | succ j =>
          rw [List.getElem?_cons_succ] at hi
          refine Or.inl ⟨j, c, hi, hc, ?_⟩
          rw [hp, show x + (j + 1) = x + 1 + j from by omega]
      · exact Or.inr (Or.inr h)

theorem parseRows_mem (f : SokobanModel → Finset (Int × Int)) (pred : Char → Prop)
    [DecidablePred pred]
    (hf : ∀ m pos c, f (parseCell m pos c) = if pred c then insert pos (f m) else f m) :
    ∀ (rows : List (List Char)) (y : Nat) (m : SokobanModel) (p : Int × Int),
      p ∈ f (parseRows y rows m) ↔
        (∃ (j : Nat) (r : List Char) (i : Nat) (c : Char),
          rows[j]? = some r ∧ (pyStrip r)[i]? = some c ∧ pred c ∧
          p = ((i : Int), ((y + j : Nat) : Int)))
          ∨ p ∈ f m := by
  intro rows
  induction rows with
  | nil =>
    intro y m p
    simp [parseRows]
  | cons r0 rest ih =>
    intro y m p
    rw [show parseRows y (r0 :: rest) m
        = parseRows (y + 1) rest (parseRowAux y 0 (pyStrip r0) m) from rfl]
    rw [ih (y + 1) (parseRowAux y 0 (pyStrip r0) m) p,
      parseRowAux_mem f pred hf y (pyStrip r0) 0 m p]
    constructor
    · rintro (⟨j, r, i, c, hj, hi, hc, hp⟩ | ⟨i, c, hi, hc, hp⟩ | h)
      · refine Or.inl ⟨j + 1, r, i, c, by simpa using hj, hi, hc, ?_⟩
        rw [hp, show y + 1 + j = y + (j + 1) from by omega]
      · refine Or.inl ⟨0, r0, i, c, by simp, hi, hc, ?_⟩
        rw [hp, Nat.zero_add, Nat.add_zero]
      · exact Or.inr h
    · rintro (⟨j, r, i, c, hj, hi, hc, hp⟩ | h)
      · cases j with
        | zero =>
          rw [List.getElem?_cons_zero] at hj
          obtain rfl : r0 = r := Option.some.inj hj
          refine Or.inr (Or.inl ⟨i, c, hi, hc, ?_⟩)
          rw [hp, Nat.add_zero, Nat.zero_add]
        | succ j' =>
          rw [List.getElem?_cons_succ] at hj
          refine Or.inl ⟨j', r, i, c, hj, hi, hc, ?_⟩
          rw [hp, show y + (j' + 1) = y + 1 + j' from by omega]
      · exact Or.inr (Or.inr h)

theorem init_walls_mem (data : List (List Char)) (p : Int × Int) :
    p ∈ (SokobanModel.init data).walls ↔
      ∃ x y : Nat, charAt data x y = some '#' ∧ p = ((x : Int), (y : Int)) := by
  unfold SokobanModel.init
  rw [parseRows_mem SokobanModel.walls (fun c => c = '#') (by
    intro m pos c
    rw [parseCell_walls])]
  simp only [charAt, Option.bind_eq_some, Finset.not_mem_empty, or_false, Nat.zero_add]
  constructor
  · rintro ⟨j, r, i, c, hj, hi, rfl, hp⟩
    exact ⟨i, j, ⟨r, hj, hi⟩, hp⟩
  · rintro ⟨x, y, ⟨r, hy, hx⟩, hp⟩
    exact ⟨y, r, x, '#', hy, hx, rfl, hp⟩

theorem init_boxes_mem (data : List (List Char)) (p : Int × Int) :
    p ∈ (SokobanModel.init data).boxes ↔
      ∃ x y : Nat, ∃ c, charAt data x y = some c ∧ (c = '$' ∨ c = '*') ∧
        p = ((x : Int), (y : Int)) := by
  unfold SokobanModel.init
  rw [parseRows_mem SokobanModel.boxes (fun c => c = '$' ∨ c = '*') (by
    intro m pos c
    rw [parseCell_boxes])]
  simp only [charAt, Option.bind_eq_some, Finset.not_mem_empty, or_false, Nat.zero_add]
  constructor
  · rintro ⟨j, r, i, c, hj, hi, hc, hp⟩
    exact ⟨i, j, c, ⟨r, hj, hi⟩, hc, hp⟩
  · rintro ⟨x, y, c, ⟨r, hy, hx⟩, hc, hp⟩
    exact ⟨y, r, x, c, hy, hx, hc, hp⟩

theorem init_goals_mem (data : List (List Char)) (p : Int × Int) :
    p ∈ (SokobanModel.init data).goals ↔
      ∃ x y : Nat, ∃ c, charAt data x y = some c ∧ (c = '*' ∨ c = '+' ∨ c = '.') ∧
        p = ((x : Int), (y : Int)) := by
  unfold SokobanModel.init
  rw [parseRows_mem SokobanModel.goals (fun c => c = '*' ∨ c = '+' ∨ c = '.') (by
    intro m pos c
    rw [parseCell_goals])]
  simp only [charAt, Option.bind_eq_some, Finset.not_mem_empty, or_false, Nat.zero_add]
  constructor
  · rintro ⟨j, r, i, c, hj, hi, hc, hp⟩
    exact ⟨i, j, c, ⟨r, hj, hi⟩, hc, hp⟩
  · rintro ⟨x, y, c, ⟨r, hy, hx⟩, hc, hp⟩
    exact ⟨y, r, x, c, hy, hx, hc, hp⟩

/-- Combinator for "last assignment wins": keep `a` when it is set, otherwise
fall back to `b`. -/
def orElseOpt (a b : Option (Int × Int)) : Option (Int × Int) :=
  match a with
  | some v => some v
  | none => b

theorem orElseOpt_none (b : Option (Int × Int)) : orElseOpt none b = b := rfl

theorem orElseOpt_some (v : Int × Int) (b : Option (Int × Int)) :
    orElseOpt (some v) b = some v := rfl

theorem orElseOpt_assoc (a b c : Option (Int × Int)) :
    orElseOpt (orElseOpt a b) c = orElseOpt a (orElseOpt b c) := by
  cases a <;> rfl

theorem orElseOpt_none_right (a : Option (Int × Int)) : orElseOpt a none = a := by
  cases a <;> rfl

/-- The position of the last player symbol (`@` or `+`) in `row`, whose first
character sits at column `x` of row `y`; `none` when the row has none. -/
def lastPlayerRow (y x : Nat) (row : List Char) : Option (Int × Int) :=
  match row with
  | [] => none
  | c :: rest =>
    orElseOpt (lastPlayerRow y (x + 1) rest)
      (if c = '@' ∨ c = '+' then some ((x : Int), (y : Int)) else none)

/-- The position of the last player symbol in row-major scan order over the
stripped rows, rows numbered from `y`. -/
def lastPlayerRows (y : Nat) (rows : List (List Char)) : Option (Int × Int) :=
  match rows with
  | [] => none
  | r :: rest => orElseOpt (lastPlayerRows (y + 1) rest) (lastPlayerRow y 0 (pyStrip r))

theorem parseRowAux_player (y : Nat) :
    ∀ (row : List Char) (x : Nat) (m : SokobanModel),
      (parseRowAux y x row m).player = orElseOpt (lastPlayerRow y x row) m.player := by
  intro row
  induction row with
  | nil => intro x m; rfl
  | cons c0 rest ih =>
    intro x m
    rw [show parseRowAux y x (c0 :: rest) m
        = parseRowAux y (x + 1) rest (parseCell m ((x : Int), (y : Int)) c0) from rfl]
    rw [ih (x + 1) (parseCell m ((x : Int), (y : Int)) c0), parseCell_player]
    rw [show lastPlayerRow y x (c0 :: rest)
        = orElseOpt (lastPlayerRow y (x + 1) rest)
            (if c0 = '@' ∨ c0 = '+' then some ((x : Int), (y : Int)) else none) from rfl]
    rw [orElseOpt_assoc]
    by_cases h : c0 = '@' ∨ c0 = '+'
    · rw [if_pos h, if_pos h, orElseOpt_some]
    · rw [if_neg h, if_neg h, orElseOpt_none]

theorem parseRows_player :
    ∀ (rows : List (List Char)) (y : Nat) (m : SokobanModel),
      (parseRows y rows m).player = orElseOpt (lastPlayerRows y rows) m.player := by
  intro rows
  induction rows with
  | nil => intro y m; rfl
  | cons r0 rest ih =>
    intro y m
    rw [show parseRows y (r0 :: rest) m
        = parseRows (y + 1) rest (parseRowAux y 0 (pyStrip r0) m) from rfl]
    rw [ih (y + 1) (parseRowAux y 0 (pyStrip r0) m), parseRowAux_player]
    rw [show lastPlayerRows y (r0 :: rest)
        = orElseOpt (lastPlayerRows (y + 1) rest) (lastPlayerRow y 0 (pyStrip r0)) from rfl]
    rw [orElseOpt_assoc]

theorem init_player (data : List (List Char)) :
    (SokobanModel.init data).player = lastPlayerRows 0 data := by
  unfold SokobanModel.init
  rw [parseRows_player]
  exact orElseOpt_none_right _

theorem parseRows_size :
    ∀ (rows : List (List Char)) (y : Nat) (m : SokobanModel),
      (parseRows y rows m).size = m.size := by
  intro rows
  induction rows with
  | nil => intro y m; rfl
  | cons r0 rest ih =>
    intro y m
    rw [show parseRows y (r0 :: rest) m
        = parseRows (y + 1) rest (parseRowAux y 0 (pyStrip r0) m) from rfl]
    rw [ih]
    have hrow : ∀ (row : List Char) (x : Nat) (mm : SokobanModel),
        (parseRowAux y x row mm).size = mm.size := by
      intro row
      induction row with
      | nil => intro x mm; rfl
      | cons c rest2 ih2 =>
        intro x mm
        rw [show parseRowAux y x (c :: rest2) mm
            = parseRowAux y (x + 1) rest2 (parseCell mm ((x : Int), (y : Int)) c) from rfl]
        rw [ih2, parseCell_size]
    exact hrow (pyStrip r0) 0 m

theorem init_size (data : List (List Char)) :
    (SokobanModel.init data).size =
      match data with
      | [] => ((0 : Int), (0 : Int))
      | r :: _ => (((pyStrip r).length : Int), (data.length : Int)) := by
  unfold SokobanModel.init
  rw [parseRows_size]

theorem is_empty_iff (m : SokobanModel) (x y : Int) :
    m.is_empty x y = true ↔ (x, y) ∉ m.walls ∧ (x, y) ∉ m.boxes := by
  unfold SokobanModel.is_empty
  by_cases h1 : (x, y) ∈ m.walls <;> by_cases h2 : (x, y) ∈ m.boxes <;> simp [h1, h2]

theorem is_empty_false_of_box (m : SokobanModel) (x y : Int) (hb : (x, y) ∈ m.boxes) :
    m.is_empty x y = false := by
  unfold SokobanModel.is_empty
  by_cases h1 : (x, y) ∈ m.walls <;> simp [h1, hb]

/-- Exhaustive description of the four outcomes of `move(dx, dy)` on a board
with a player: walk into an empty cell, push a box into an empty cell, push a
blocked box (no mutation), or walk into a wall (no mutation). -/
theorem move_cases (m : SokobanModel) (x y dx dy : Int) (hp : m.player = some (x, y)) :
    (m.is_empty (x + dx) (y + dy) = true ∧
      m.move dx dy = some ({ m with player := some (x + dx, y + dy) }, MoveResponse.VALID))
    ∨ (m.is_empty (x + dx) (y + dy) = false ∧ (x + dx, y + dy) ∈ m.boxes ∧
      m.is_empty (x + dx + dx) (y + dy + dy) = true ∧
      m.move dx dy = some
        ({ m with
            boxes := insert (x + dx + dx, y + dy + dy) (m.boxes.erase (x + dx, y + dy)),
            player := some (x + dx, y + dy) }, MoveResponse.VALID))
    ∨ (m.is_empty (x + dx) (y + dy) = false ∧ (x + dx, y + dy) ∈ m.boxes ∧
      m.is_empty (x + dx + dx) (y + dy + dy) = false ∧
      m.move dx dy = some (m, MoveResponse.INVALID_BOX))
    ∨ (m.is_empty (x + dx) (y + dy) = false ∧ (x + dx, y + dy) ∉ m.boxes ∧
      m.move dx dy = some (m, MoveResponse.INVALID_WALL)) := by
  by_cases he : m.is_empty (x + dx) (y + dy) = true
  · exact Or.inl ⟨he, by simp [SokobanModel.move, hp, he]⟩
  · rw [Bool.not_eq_true] at he
    by_cases hb : (x + dx, y + dy) ∈ m.boxes
    · by_cases he2 : m.is_empty (x + dx + dx) (y + dy + dy) = true
      · refine Or.inr (Or.inl ⟨he, hb, he2, ?_⟩)
        simp [SokobanModel.move, hp, he, hb, he2]
      · rw [Bool.not_eq_true] at he2
        refine Or.inr (Or.inr (Or.inl ⟨he, hb, he2, ?_⟩))
        simp [SokobanModel.move, hp, he, hb, he2]
    · refine Or.inr (Or.inr (Or.inr ⟨he, hb, ?_⟩))
      simp [SokobanModel.move, hp, he, hb]

/-- The move operation reports `none` (the Python `AttributeError`) exactly when the player
attribute is unset. -/
theorem move_eq_none_iff (m : SokobanModel) (dx dy : Int) :
    m.move dx dy = none ↔ m.player = none := by
  constructor
  · intro h
    by_contra hne
    obtain ⟨⟨x, y⟩, hp⟩ := Option.ne_none_iff_exists'.mp hne
    rcases move_cases m x y dx dy hp with ⟨_, hm⟩ | ⟨_, _, _, hm⟩ | ⟨_, _, _, hm⟩ | ⟨_, _, hm⟩ <;>
      rw [hm] at h <;> exact Option.noConfusion h
  · intro h
    simp [SokobanModel.move, h]

/-- Whatever a successful `move` does, the resulting board still has a player,
and the walls, goals and dimensions are untouched. -/
theorem move_preserves (m m' : SokobanModel) (x y dx dy : Int) (r : MoveResponse)
    (hp : m.player = some (x, y)) (hm : m.move dx dy = some (m', r)) :
    (∃ q, m'.player = some q) ∧ m'.walls = m.walls ∧ m'.goals = m.goals ∧
      m'.size = m.size := by
  rcases move_cases m x y dx dy hp with ⟨_, h⟩ | ⟨_, _, _, h⟩ | ⟨_, _, _, h⟩ | ⟨_, _, h⟩ <;>
    rw [h] at hm <;>
    obtain ⟨rfl, rfl⟩ := Prod.mk.inj (Option.some.inj hm) <;>
    refine ⟨?_, rfl, rfl, rfl⟩ <;>
    first
      | exact ⟨(x + dx, y + dy), rfl⟩
      | exact ⟨(x, y), hp⟩

/-- Claim C1.  The spec (and the repository's own test
`test_level_completion_empty`) demand that a board with no boxes count as
complete, but `is_level_complete` ends with `len(self.boxes) > 0 and ...`:
on the test's own level (all walls around a lone player, no boxes) the box set
is empty, is trivially a subset of the goal set, and yet the code reports the
level as not complete. -/
theorem sokoban_C1_empty_boxes_incomplete :
    (SokobanModel.init [['#', '#', '#'], ['#', '@', '#'], ['#', '#', '#']]).boxes = ∅ ∧
    (∀ b ∈ (SokobanModel.init [['#', '#', '#'], ['#', '@', '#'], ['#', '#', '#']]).boxes,
      b ∈ (SokobanModel.init [['#', '#', '#'], ['#', '@', '#'], ['#', '#', '#']]).goals) ∧
    (SokobanModel.init [['#', '#', '#'], ['#', '@', '#'], ['#', '#', '#']]).is_level_complete
      = false := by
  decide

/-- Claim C9.  On a board whose player stands on a coordinate that is neither a
wall nor a box, `move(0, 0)` finds the destination (the player's own cell)
empty, re-assigns the player to the same coordinate and returns valid: the
zero vector is an identity move. -/
theorem sokoban_C9_zero_move_identity (m : SokobanModel) (p : Int × Int)
    (hp : m.player = some p) (hw : p ∉ m.walls) (hb : p ∉ m.boxes) :
    m.move 0 0 = some (m, MoveResponse.VALID) := by
  obtain ⟨x, y⟩ := p
  have he : m.is_empty (x + 0) (y + 0) = true := by
    rw [is_empty_iff, show x + 0 = x from by ring, show y + 0 = y from by ring]
    exact ⟨hw, hb⟩
  rcases move_cases m x y 0 0 hp with ⟨_, h⟩ | ⟨hne, _, _, _⟩ | ⟨hne, _, _, _⟩ | ⟨hne, _, _⟩
  · rw [h]
    have hm : ({ m with player := some (x + 0, y + 0) } : SokobanModel) = m := by
      rw [show x + 0 = x from by ring, show y + 0 = y from by ring, ← hp]
    rw [hm]
  · rw [he] at hne; exact absurd hne (by simp)
  · rw [he] at hne; exact absurd hne (by simp)
  · rw [he] at hne; exact absurd hne (by simp)

/-- Witness for C9 on a concrete one-cell board. -/
theorem sokoban_C9_zero_move_identity_witness :
    (SokobanModel.init [['@']]).move 0 0
      = some (SokobanModel.init [['@']], MoveResponse.VALID) :=
  sokoban_C9_zero_move_identity (SokobanModel.init [['@']]) (0, 0)
    (by decide) (by decide) (by decide)

/-- Claim C4.  When `move` answers invalid-wall or invalid-box it performs no
mutation at all (the returned board is the argument board, so walls, goals,
boxes and player are all unchanged), and repeating the same move any number of
times still yields the same board. -/
theorem sokoban_C4_invalid_no_mutation (m m' : SokobanModel) (p : Int × Int)
    (dx dy : Int) (r : MoveResponse)
    (hp : m.player = some p) (hu : isUnitDir (dx, dy))
    (hm : m.move dx dy = some (m', r))
    (hr : r = MoveResponse.INVALID_WALL ∨ r = MoveResponse.INVALID_BOX) :
    m' = m ∧ ∀ n : Nat, m.moveN dx dy n = some m := by
  obtain ⟨x, y⟩ := p
  rcases move_cases m x y dx dy hp with ⟨_, h⟩ | ⟨_, _, _, h⟩ | ⟨_, _, _, h⟩ | ⟨_, _, h⟩ <;>
    rw [h] at hm <;> obtain ⟨rfl, rfl⟩ := Prod.mk.inj (Option.some.inj hm)
  · rcases hr with hr | hr <;> exact absurd hr (by simp)
  · rcases hr with hr | hr <;> exact absurd hr (by simp)
  · refine ⟨rfl, ?_⟩
    intro n
    induction n with
    | zero => rfl
    | succ k ih =>
      rw [show m.moveN dx dy (k + 1)
          = (match m.move dx dy with
             | none => none
             | some (m2, _) => m2.moveN dx dy k) from rfl]
      rw [h]
      exact ih
  · refine ⟨rfl, ?_⟩
    intro n
    induction n with
    | zero => rfl
    | succ k ih =>
      rw [show m.moveN dx dy (k + 1)
          = (match m.move dx dy with
             | none => none
             | some (m2, _) => m2.moveN dx dy k) from rfl]
      rw [h]
      exact ih

/-- Witness for C4: pushing against the wall on `#@` twice changes nothing. -/
theorem sokoban_C4_invalid_no_mutation_witness :
    (SokobanModel.init [['#', '@']]).moveN (-1) 0 2 = some (SokobanModel.init [['#', '@']]) :=
  (sokoban_C4_invalid_no_mutation (SokobanModel.init [['#', '@']])
    (SokobanModel.init [['#', '@']]) (1, 0) (-1) 0 MoveResponse.INVALID_WALL
    (by decide) (by decide) (by decide) (Or.inl rfl)).2 2

/-- Claim C5.  When the destination holds a box and the cell one further step
is neither a wall nor a box, `move` returns valid, the box set becomes the old
set with the pushed box removed and re-inserted at the far cell, and the
player steps into the vacated cell. -/
theorem sokoban_C5_valid_push (m : SokobanModel) (x y dx dy : Int)
    (hp : m.player = some (x, y)) (hu : isUnitDir (dx, dy))
    (hb : (x + dx, y + dy) ∈ m.boxes)
    (hw2 : (x + 2 * dx, y + 2 * dy) ∉ m.walls)
    (hb2 : (x + 2 * dx, y + 2 * dy) ∉ m.boxes) :
    m.move dx dy = some
      ({ m with
          boxes := insert (x + 2 * dx, y + 2 * dy) (m.boxes.erase (x + dx, y + dy)),
          player := some (x + dx, y + dy) }, MoveResponse.VALID) ∧
    (x + dx, y + dy) ∉ insert (x + 2 * dx, y + 2 * dy) (m.boxes.erase (x + dx, y + dy)) ∧
    (x + 2 * dx, y + 2 * dy) ∈ insert (x + 2 * dx, y + 2 * dy)
      (m.boxes.erase (x + dx, y + dy)) := by
  have h2x : x + 2 * dx = x + dx + dx := by ring
  have h2y : y + 2 * dy = y + dy + dy := by ring
  have hne0 : ¬(dx = 0 ∧ dy = 0) := by
    rcases hu with h | h | h | h <;> obtain ⟨h1, h2⟩ := Prod.mk.inj h <;> omega
  have hnn : (x + dx, y + dy) ≠ (x + 2 * dx, y + 2 * dy) := by
    intro hEq
    obtain ⟨e1, e2⟩ := Prod.mk.inj hEq
    exact hne0 ⟨by omega, by omega⟩
  have he2 : m.is_empty (x + dx + dx) (y + dy + dy) = true := by
    rw [is_empty_iff, ← h2x, ← h2y]; exact ⟨hw2, hb2⟩
  have hneH : m.is_empty (x + dx) (y + dy) = false := is_empty_false_of_box _ _ _ hb
  rcases move_cases m x y dx dy hp with ⟨he, _⟩ | ⟨_, _, _, h⟩ | ⟨_, _, hbad, _⟩ | ⟨_, hnb, _⟩
  · rw [hneH] at he; exact absurd he (by simp)
  · refine ⟨?_, ?_, Finset.mem_insert_self _ _⟩
    · rw [h2x, h2y]; exact h
    · rw [Finset.mem_insert]
      rintro (hEq | hIn)
      · exact hnn hEq
      · exact (Finset.mem_erase.mp hIn).1 rfl
  · rw [he2] at hbad; exact absurd hbad (by simp)
  · exact absurd hb hnb

/-- Witness for C5: on `@$-` the move right pushes the box from `(1,0)` to
`(2,0)`. -/
theorem sokoban_C5_valid_push_witness :
    (SokobanModel.init [['@', '$', '-']]).move 1 0 = some
      ({ SokobanModel.init [['@', '$', '-']] with
          boxes := insert ((0 : Int) + 2 * 1, (0 : Int) + 2 * 0)
            ((SokobanModel.init [['@', '$', '-']]).boxes.erase (0 + 1, 0 + 0)),
          player := some (0 + 1, 0 + 0) }, MoveResponse.VALID) ∧
    ((0 : Int) + 1, (0 : Int) + 0) ∉ insert ((0 : Int) + 2 * 1, (0 : Int) + 2 * 0)
      ((SokobanModel.init [['@', '$', '-']]).boxes.erase (0 + 1, 0 + 0)) ∧
    ((0 : Int) + 2 * 1, (0 : Int) + 2 * 0) ∈ insert ((0 : Int) + 2 * 1, (0 : Int) + 2 * 0)
      ((SokobanModel.init [['@', '$', '-']]).boxes.erase (0 + 1, 0 + 0)) :=
  sokoban_C5_valid_push (SokobanModel.init [['@', '$', '-']]) 0 0 1 0
    (by decide) (by decide) (by decide) (by decide) (by decide)

/-- Claim C8.  `symbol(x, y)` classifies a coordinate by checking goal
membership first (box-on-goal, then player-on-goal, then plain goal), then
box, then player, then wall, then floor; a goal cell holding a box is always
box-on-goal. -/
theorem sokoban_C8_symbol_precedence (m : SokobanModel) (p : Int × Int) (x y : Int)
    (hp : m.player = some p) :
    ((x, y) ∈ m.goals →
      (((x, y) ∈ m.boxes → m.symbol x y = Symbol.BOX_ON_GOAL) ∧
       ((x, y) ∉ m.boxes → (x, y) = p → m.symbol x y = Symbol.PLAYER_ON_GOAL) ∧
       ((x, y) ∉ m.boxes → (x, y) ≠ p → m.symbol x y = Symbol.GOAL))) ∧
    ((x, y) ∉ m.goals →
      (((x, y) ∈ m.boxes → m.symbol x y = Symbol.BOX) ∧
       ((x, y) ∉ m.boxes → (x, y) = p → m.symbol x y = Symbol.PLAYER) ∧
       ((x, y) ∉ m.boxes → (x, y) ≠ p → (x, y) ∈ m.walls → m.symbol x y = Symbol.WALL) ∧
       ((x, y) ∉ m.boxes → (x, y) ≠ p → (x, y) ∉ m.walls →
         m.symbol x y = Symbol.FLOOR))) := by
  unfold SokobanModel.symbol
  rw [hp]
  constructor
  · intro hg
    refine ⟨fun hb => by simp [hg, hb], fun hb heq => ?_, fun hb hne => ?_⟩
    · rw [← heq]; simp [hg, hb]
    · simp [hg, hb, Option.some.injEq, (Ne.symm hne : p ≠ (x, y))]
  · intro hg
    refine ⟨fun hb => by simp [hg, hb], fun hb heq => ?_, fun hb hne hw => ?_,
      fun hb hne hw => ?_⟩
    · rw [← heq]; simp [hg, hb]
    · simp [hg, hb, hw, Option.some.injEq, (Ne.symm hne : p ≠ (x, y))]
    · simp [hg, hb, hw, Option.some.injEq, (Ne.symm hne : p ≠ (x, y))]

/-- Witness for C8: on `*@` the goal-with-box cell renders as box-on-goal. -/
theorem sokoban_C8_symbol_precedence_witness :
    (SokobanModel.init [['*', '@']]).symbol 0 0 = Symbol.BOX_ON_GOAL :=
  ((sokoban_C8_symbol_precedence (SokobanModel.init [['*', '@']]) (1, 0) 0 0
    (by decide)).1 (by decide)).1 (by decide)

theorem move_boxes_card (m m' : SokobanModel) (x y dx dy : Int) (r : MoveResponse)
    (hp : m.player = some (x, y)) (hm : m.move dx dy = some (m', r)) :
    m'.boxes.card = m.boxes.card := by
  rcases move_cases m x y dx dy hp with ⟨_, h⟩ | ⟨_, hb, he2, h⟩ | ⟨_, _, _, h⟩ | ⟨_, _, h⟩ <;>
    rw [h] at hm <;> obtain ⟨rfl, rfl⟩ := Prod.mk.inj (Option.some.inj hm)
  · rfl
  · have hnb2 : (x + dx + dx, y + dy + dy) ∉ m.boxes :=
      ((is_empty_iff m _ _).mp he2).2
    have hnb2e : (x + dx + dx, y + dy + dy) ∉ m.boxes.erase (x + dx, y + dy) := by
      intro hIn
      exact hnb2 (Finset.mem_erase.mp hIn).2
    have hpos : 0 < m.boxes.card := Finset.card_pos.mpr ⟨_, hb⟩
    show (insert (x + dx + dx, y + dy + dy) (m.boxes.erase (x + dx, y + dy))).card
      = m.boxes.card
    rw [Finset.card_insert_of_not_mem hnb2e, Finset.card_erase_of_mem hb]
    omega
  · rfl
  · rfl

/-- Claim C6.  No sequence of moves ever changes the cardinality of the box
set: a push relocates one box, never creates or destroys one. -/
theorem sokoban_C6_box_count_conserved (l : List (Int × Int)) :
    ∀ (m m' : SokobanModel) (p : Int × Int), m.player = some p →
      (∀ d ∈ l, isUnitDir d) → m.moves l = some m' →
      m'.boxes.card = m.boxes.card := by
  induction l with
  | nil =>
    intro m m' p hp hu hm
    rw [show m.moves [] = some m from rfl] at hm
    rw [← Option.some.inj hm]
  | cons d rest ih =>
    intro m m' p hp hu hm
    obtain ⟨x, y⟩ := p
    rw [show m.moves (d :: rest)
        = (match m.move d.1 d.2 with
           | none => none
           | some (m2, _) => m2.moves rest) from rfl] at hm
    cases hmv : m.move d.1 d.2 with
    | none => rw [hmv] at hm; exact absurd hm (by simp)
    | some pr =>
      obtain ⟨m1, r⟩ := pr
      rw [hmv] at hm
      obtain ⟨⟨q, hq⟩, _, _, _⟩ := move_preserves m m1 x y d.1 d.2 r hp hmv
      have h1 := ih m1 m' q hq (fun d2 hd2 => hu d2 (List.mem_cons_of_mem d hd2)) hm
      have h2 := move_boxes_card m m1 x y d.1 d.2 r hp hmv
      rw [h1, h2]

/-- Witness for C6: the push on `@$-` keeps exactly one box. -/
theorem sokoban_C6_box_count_conserved_witness :
    ({ walls := ∅, boxes := {((2 : Int), (0 : Int))}, goals := ∅,
        size := ((3 : Int), (1 : Int)),
        player := some ((1 : Int), (0 : Int)) } : SokobanModel).boxes.card
      = (SokobanModel.init [['@', '$', '-']]).boxes.card :=
  sokoban_C6_box_count_conserved [(1, 0)] (SokobanModel.init [['@', '$', '-']])
    { walls := ∅, boxes := {((2 : Int), (0 : Int))}, goals := ∅,
      size := ((3 : Int), (1 : Int)), player := some ((1 : Int), (0 : Int)) }
    (0, 0) (by decide) (by decide) (by decide)

theorem natPair_inj {a b u v : Nat} (h : ((a : Int), (b : Int)) = ((u : Int), (v : Int))) :
    a = u ∧ b = v := by
  obtain ⟨h1, h2⟩ := Prod.mk.inj h
  exact ⟨by exact_mod_cast h1, by exact_mod_cast h2⟩

theorem init_walls_not_boxes (data : List (List Char)) :
    ∀ q ∈ (SokobanModel.init data).walls, q ∉ (SokobanModel.init data).boxes := by
  intro q hw hb
  rw [init_walls_mem] at hw
  rw [init_boxes_mem] at hb
  obtain ⟨x, y, hcw, rfl⟩ := hw
  obtain ⟨x', y', c, hcb, hcc, heq⟩ := hb
  obtain ⟨rfl, rfl⟩ := natPair_inj heq
  obtain rfl := Option.some.inj (hcw.symm.trans hcb)
  rcases hcc with h | h <;> exact absurd h (by decide)

theorem lastPlayerRow_mem (y : Nat) :
    ∀ (row : List Char) (x : Nat) (v : Int × Int),
      lastPlayerRow y x row = some v →
      ∃ i c, row[i]? = some c ∧ (c = '@' ∨ c = '+') ∧
        v = (((x + i : Nat) : Int), (y : Int)) := by
  intro row
  induction row with
  | nil => intro x v h; exact absurd h (by simp [lastPlayerRow])
  | cons c0 rest ih =>
    intro x v h
    rw [show lastPlayerRow y x (c0 :: rest)
        = orElseOpt (lastPlayerRow y (x + 1) rest)
            (if c0 = '@' ∨ c0 = '+' then some ((x : Int), (y : Int)) else none) from rfl] at h
    cases hL : lastPlayerRow y (x + 1) rest with
    | some w =>
      rw [hL, orElseOpt_some] at h
      obtain rfl := Option.some.inj h
      obtain ⟨i, c, hi, hc, hv⟩ := ih (x + 1) w hL
      exact ⟨i + 1, c, by simpa using hi, hc,
        by rw [hv, show x + 1 + i = x + (i + 1) from by omega]⟩
    | none =>
      rw [hL, orElseOpt_none] at h
      by_cases hc0 : c0 = '@' ∨ c0 = '+'
      · rw [if_pos hc0] at h
        obtain rfl := Option.some.inj h
        exact ⟨0, c0, by simp, hc0, by rw [Nat.add_zero]⟩
      · rw [if_neg hc0] at h; exact absurd h (by simp)

theorem lastPlayerRows_mem :
    ∀ (rows : List (List Char)) (y : Nat) (v : Int × Int),
      lastPlayerRows y rows = some v →
      ∃ (j : Nat) (r : List Char) (i : Nat) (c : Char),
        rows[j]? = some r ∧ (pyStrip r)[i]? = some c ∧ (c = '@' ∨ c = '+') ∧
        v = ((i : Int), ((y + j : Nat) : Int)) := by
  intro rows
  induction rows with
  | nil => intro y v h; exact absurd h (by simp [lastPlayerRows])
  | cons r0 rest ih =>
    intro y v h
    rw [show lastPlayerRows y (r0 :: rest)
        = orElseOpt (lastPlayerRows (y + 1) rest) (lastPlayerRow y 0 (pyStrip r0)) from rfl] at h
    cases hL : lastPlayerRows (y + 1) rest with
    | some w =>
      rw [hL, orElseOpt_some] at h
      obtain rfl := Option.some.inj h
      obtain ⟨j, r, i, c, hj, hi, hc, hv⟩ := ih (y + 1) w hL
      exact ⟨j + 1, r, i, c, by simpa using hj, hi, hc,
        by rw [hv, show y + 1 + j = y + (j + 1) from by omega]⟩
    | none =>
      rw [hL, orElseOpt_none] at h
      obtain ⟨i, c, hi, hc, hv⟩ := lastPlayerRow_mem y (pyStrip r0) 0 v h
      refine ⟨0, r0, i, c, by simp, hi, hc, ?_⟩
      rw [hv, Nat.add_zero, show (0 : Nat) + i = i from by omega]

theorem init_player_char (data : List (List Char)) (v : Int × Int)
    (hp : (SokobanModel.init data).player = some v) :
    ∃ (x y : Nat) (c : Char), charAt data x y = some c ∧ (c = '@' ∨ c = '+') ∧
      v = ((x : Int), (y : Int)) := by
  rw [init_player] at hp
  obtain ⟨j, r, i, c, hj, hi, hc, hv⟩ := lastPlayerRows_mem data 0 v hp
  exact ⟨i, j, c, by simp [charAt, hj, hi], hc, by rw [hv, Nat.zero_add]⟩

theorem init_player_not_wall_box (data : List (List Char)) (v : Int × Int)
    (hp : (SokobanModel.init data).player = some v) :
    v ∉ (SokobanModel.init data).walls ∧ v ∉ (SokobanModel.init data).boxes := by
  obtain ⟨a, b, c, hc, hcp, rfl⟩ := init_player_char data v hp
  constructor
  · intro hIn
    rw [init_walls_mem] at hIn
    obtain ⟨a', b', hc', heq⟩ := hIn
    obtain ⟨rfl, rfl⟩ := natPair_inj heq
    obtain rfl := Option.some.inj (hc.symm.trans hc')
    rcases hcp with h | h <;> exact absurd h (by decide)
  · intro hIn
    rw [init_boxes_mem] at hIn
    obtain ⟨a', b', c', hc', hcc, heq⟩ := hIn
    obtain ⟨rfl, rfl⟩ := natPair_inj heq
    obtain rfl := Option.some.inj (hc.symm.trans hc')
    rcases hcp with h | h <;> rcases hcc with h2 | h2 <;>
      exact absurd (h.symm.trans h2) (by decide)

theorem move_invariant (m m' : SokobanModel) (x y dx dy : Int) (r : MoveResponse)
    (hp : m.player = some (x, y))
    (hd : ∀ q ∈ m.walls, q ∉ m.boxes)
    (hpw : (x, y) ∉ m.walls) (hpb : (x, y) ∉ m.boxes)
    (hm : m.move dx dy = some (m', r)) :
    (∀ q ∈ m'.walls, q ∉ m'.boxes) ∧
    ∃ p', m'.player = some p' ∧ p' ∉ m'.walls ∧ p' ∉ m'.boxes := by
  rcases move_cases m x y dx dy hp with ⟨he, h⟩ | ⟨_, hb, he2, h⟩ | ⟨_, _, _, h⟩ | ⟨_, _, h⟩ <;>
    rw [h] at hm <;> obtain ⟨rfl, rfl⟩ := Prod.mk.inj (Option.some.inj hm)
  · obtain ⟨hw1, hb1⟩ := (is_empty_iff m _ _).mp he
    exact ⟨hd, ⟨(x + dx, y + dy), rfl, hw1, hb1⟩⟩
  · obtain ⟨hw2, hb2⟩ := (is_empty_iff m _ _).mp he2
    have hndz : ¬(dx = 0 ∧ dy = 0) := by
      rintro ⟨rfl, rfl⟩
      apply hpb
      have heq : (x + 0, y + 0) = (x, y) := by norm_num
      rwa [heq] at hb
    constructor
    · intro q hq
      rw [Finset.mem_insert]
      rintro (rfl | hIn)
      · exact hw2 hq
      · exact hd q hq (Finset.mem_erase.mp hIn).2
    · refine ⟨(x + dx, y + dy), rfl, ?_, ?_⟩
      · intro hIn; exact hd _ hIn hb
      · rw [Finset.mem_insert]
        rintro (hEq | hIn)
        · obtain ⟨e1, e2⟩ := Prod.mk.inj hEq
          exact hndz ⟨by omega, by omega⟩
        · exact (Finset.mem_erase.mp hIn).1 rfl
  · exact ⟨hd, ⟨(x, y), hp, hpw, hpb⟩⟩
  · exact ⟨hd, ⟨(x, y), hp, hpw, hpb⟩⟩

theorem moves_invariant (l : List (Int × Int)) :
    ∀ (m m' : SokobanModel),
      (∃ p, m.player = some p ∧ p ∉ m.walls ∧ p ∉ m.boxes) →
      (∀ q ∈ m.walls, q ∉ m.boxes) →
      m.moves l = some m' →
      (∀ q ∈ m'.walls, q ∉ m'.boxes) ∧
      ∃ p, m'.player = some p ∧ p ∉ m'.walls ∧ p ∉ m'.boxes := by
  induction l with
  | nil =>
    intro m m' hpl hd hm
    rw [show m.moves [] = some m from rfl] at hm
    rw [← Option.some.inj hm]
    exact ⟨hd, hpl⟩
  | cons d rest ih =>
    intro m m' hpl hd hm
    obtain ⟨⟨x, y⟩, hp, hpw, hpb⟩ := hpl
    rw [show m.moves (d :: rest)
        = (match m.move d.1 d.2 with
           | none => none
           | some (m2, _) => m2.moves rest) from rfl] at hm
    cases hmv : m.move d.1 d.2 with
    | none => rw [hmv] at hm; exact absurd hm (by simp)
    | some pr =>
      obtain ⟨m1, r⟩ := pr
      rw [hmv] at hm
      obtain ⟨hd1, hpl1⟩ := move_invariant m m1 x y d.1 d.2 r hp hd hpw hpb hmv
      exact ih m1 m' hpl1 hd1 hm

/-- Claim C7.  A parser-built board with a player keeps, through any sequence
of unit moves, the disjointness of walls and boxes and a player that stands on
neither a wall nor a box. -/
theorem sokoban_C7_disjointness (data : List (List Char)) (l : List (Int × Int))
    (m' : SokobanModel) (p0 : Int × Int)
    (hp : (SokobanModel.init data).player = some p0)
    (hu : ∀ d ∈ l, isUnitDir d)
    (hm : (SokobanModel.init data).moves l = some m') :
    (∀ q ∈ m'.walls, q ∉ m'.boxes) ∧
    ∃ p, m'.player = some p ∧ p ∉ m'.walls ∧ p ∉ m'.boxes := by
  obtain ⟨hw0, hb0⟩ := init_player_not_wall_box data p0 hp
  exact moves_invariant l (SokobanModel.init data) m' ⟨p0, hp, hw0, hb0⟩
    (init_walls_not_boxes data) hm

/-- Witness for C7 on `#@$` with no moves. -/
theorem sokoban_C7_disjointness_witness :
    (∀ q ∈ (SokobanModel.init [['#', '@', '$']]).walls,
      q ∉ (SokobanModel.init [['#', '@', '$']]).boxes) ∧
    ∃ p, (SokobanModel.init [['#', '@', '$']]).player = some p ∧
      p ∉ (SokobanModel.init [['#', '@', '$']]).walls ∧
      p ∉ (SokobanModel.init [['#', '@', '$']]).boxes :=
  sokoban_C7_disjointness [['#', '@', '$']] [] (SokobanModel.init [['#', '@', '$']])
    (1, 0) (by decide) (by decide) rfl

/-- A coordinate lies within `[0, width) × [0, height)` of the board. -/
def inBounds (m : SokobanModel) (p : Int × Int) : Prop :=
  0 ≤ p.1 ∧ p.1 < m.width ∧ 0 ≤ p.2 ∧ p.2 < m.height

instance (m : SokobanModel) (p : Int × Int) : Decidable (inBounds m p) := by
  unfold inBounds; infer_instance

theorem inBounds_def (m : SokobanModel) (a b : Int) :
    inBounds m (a, b) ↔ 0 ≤ a ∧ a < m.width ∧ 0 ≤ b ∧ b < m.height := Iff.rfl

/-- A coordinate lies strictly inside the one-cell border ring of the board. -/
def strictInside (m : SokobanModel) (p : Int × Int) : Prop :=
  1 ≤ p.1 ∧ p.1 < m.width - 1 ∧ 1 ≤ p.2 ∧ p.2 < m.height - 1

instance (m : SokobanModel) (p : Int × Int) : Decidable (strictInside m p) := by
  unfold strictInside; infer_instance

theorem strictInside_def (m : SokobanModel) (a b : Int) :
    strictInside m (a, b) ↔ 1 ≤ a ∧ a < m.width - 1 ∧ 1 ≤ b ∧ b < m.height - 1 := Iff.rfl

/-- Every in-bounds cell of the border ring (first/last column or row) is a
wall. -/
def borderWalled (m : SokobanModel) : Prop :=
  ∀ i < m.width.toNat, ∀ j < m.height.toNat,
    ((i : Int) = 0 ∨ (i : Int) = m.width - 1 ∨ (j : Int) = 0 ∨ (j : Int) = m.height - 1) →
    ((i : Int), (j : Int)) ∈ m.walls

instance (m : SokobanModel) : Decidable (borderWalled m) := by
  unfold borderWalled; infer_instance

theorem strictInside_inBounds (m : SokobanModel) (p : Int × Int)
    (h : strictInside m p) : inBounds m p := by
  obtain ⟨a, b⟩ := p
  rw [strictInside_def] at h
  rw [inBounds_def]
  omega

theorem step_inBounds (m : SokobanModel) (x y dx dy : Int)
    (hs : strictInside m (x, y)) (hu : isUnitDir (dx, dy)) :
    inBounds m (x + dx, y + dy) := by
  rw [strictInside_def] at hs
  rw [inBounds_def]
  rcases hu with h | h | h | h <;> obtain ⟨h1, h2⟩ := Prod.mk.inj h <;> omega

theorem not_wall_strictInside (m : SokobanModel) (q : Int × Int)
    (hbw : borderWalled m) (hq : inBounds m q) (hnw : q ∉ m.walls) :
    strictInside m q := by
  obtain ⟨qx, qy⟩ := q
  rw [inBounds_def] at hq
  obtain ⟨h1, h2, h3, h4⟩ := hq
  rw [strictInside_def]
  by_contra hni
  apply hnw
  have hcase : qx = 0 ∨ qx = m.width - 1 ∨ qy = 0 ∨ qy = m.height - 1 := by
    by_contra hno
    push_neg at hno
    obtain ⟨a, b, c, d⟩ := hno
    exact hni ⟨by omega, by omega, by omega, by omega⟩
  have hiw : qx.toNat < m.width.toNat := by omega
  have hjh : qy.toNat < m.height.toNat := by omega
  have hx : ((qx.toNat : Nat) : Int) = qx := Int.toNat_of_nonneg h1
  have hy : ((qy.toNat : Nat) : Int) = qy := Int.toNat_of_nonneg h3
  have hw := hbw qx.toNat hiw qy.toNat hjh (by rw [hx, hy]; exact hcase)
  rwa [hx, hy] at hw

theorem move_isSome (m : SokobanModel) (x y dx dy : Int)
    (hp : m.player = some (x, y)) :
    ∃ m1 r, m.move dx dy = some (m1, r) := by
  rcases move_cases m x y dx dy hp with ⟨_, h⟩ | ⟨_, _, _, h⟩ | ⟨_, _, _, h⟩ | ⟨_, _, h⟩ <;>
    exact ⟨_, _, h⟩

theorem move_bounds_invariant (m m' : SokobanModel) (x y dx dy : Int) (r : MoveResponse)
    (hp : m.player = some (x, y)) (hu : isUnitDir (dx, dy))
    (hbw : borderWalled m)
    (hboxes : ∀ b ∈ m.boxes, strictInside m b)
    (hpin : strictInside m (x, y))
    (hm : m.move dx dy = some (m', r)) :
    borderWalled m' ∧ (∀ b ∈ m'.boxes, strictInside m' b) ∧
    ∃ p', m'.player = some p' ∧ strictInside m' p' := by
  rcases move_cases m x y dx dy hp with ⟨he, h⟩ | ⟨_, hb, he2, h⟩ | ⟨_, _, _, h⟩ | ⟨_, _, h⟩ <;>
    rw [h] at hm <;> obtain ⟨rfl, rfl⟩ := Prod.mk.inj (Option.some.inj hm)
  · have hnw := ((is_empty_iff m _ _).mp he).1
    have hsn := not_wall_strictInside m _ hbw (step_inBounds m x y dx dy hpin hu) hnw
    exact ⟨hbw, hboxes, ⟨(x + dx, y + dy), rfl, hsn⟩⟩
  · have hsn := hboxes _ hb
    have hnn1 := step_inBounds m (x + dx) (y + dy) dx dy hsn hu
    have hnw2 := ((is_empty_iff m _ _).mp he2).1
    have hsnn := not_wall_strictInside m _ hbw hnn1 hnw2
    refine ⟨hbw, ?_, ⟨(x + dx, y + dy), rfl, hsn⟩⟩
    intro b hbmem
    rcases Finset.mem_insert.mp hbmem with rfl | hIn
    · exact hsnn
    · exact hboxes b (Finset.mem_erase.mp hIn).2
  · exact ⟨hbw, hboxes, ⟨(x, y), hp, hpin⟩⟩
  · exact ⟨hbw, hboxes, ⟨(x, y), hp, hpin⟩⟩

theorem moves_bounds (l : List (Int × Int)) :
    ∀ (m : SokobanModel), (∀ d ∈ l, isUnitDir d) → borderWalled m →
      (∀ b ∈ m.boxes, strictInside m b) →
      (∃ p, m.player = some p ∧ strictInside m p) →
      ∃ m', m.moves l = some m' ∧ borderWalled m' ∧
        (∀ b ∈ m'.boxes, strictInside m' b) ∧
        ∃ p, m'.player = some p ∧ strictInside m' p := by
  induction l with
  | nil =>
    intro m hu hbw hboxes hpl
    exact ⟨m, rfl, hbw, hboxes, hpl⟩
  | cons d rest ih =>
    intro m hu hbw hboxes hpl
    obtain ⟨⟨x, y⟩, hp, hpin⟩ := hpl
    obtain ⟨m1, r, hmv⟩ := move_isSome m x y d.1 d.2 hp
    obtain ⟨hbw1, hboxes1, hpl1⟩ := move_bounds_invariant m m1 x y d.1 d.2 r hp
      (hu d (List.mem_cons_self d rest)) hbw hboxes hpin hmv
    obtain ⟨m', hrest, hinv'⟩ := ih m1
      (fun d2 hd2 => hu d2 (List.mem_cons_of_mem d hd2)) hbw1 hboxes1 hpl1
    refine ⟨m', ?_, hinv'⟩
    rw [show m.moves (d :: rest)
        = (match m.move d.1 d.2 with
           | none => none
           | some (m2, _) => m2.moves rest) from rfl]
    rw [hmv]
    exact hrest

/-- Counterexample to C2 as stated: on the wall-less one-cell level `@` all
parsed coordinates are in bounds, yet the single unit move right walks the
player to column 1 of a width-1 board. -/
theorem sokoban_C2_counterexample :
    (∀ b ∈ (SokobanModel.init [['@']]).boxes, inBounds (SokobanModel.init [['@']]) b) ∧
    (SokobanModel.init [['@']]).player = some (0, 0) ∧
    inBounds (SokobanModel.init [['@']]) (0, 0) ∧
    isUnitDir (1, 0) ∧
    ((SokobanModel.init [['@']]).moves [(1, 0)]
      = some { walls := ∅, boxes := ∅, goals := ∅, size := (1, 1), player := some (1, 0) }) ∧
    ¬ inBounds
      ({ walls := ∅, boxes := ∅, goals := ∅, size := (1, 1), player := some (1, 0) }
        : SokobanModel) (1, 0) := by
  decide

/-- Claim C2, amended.  `move` performs no bounds check, so in-bounds initial
coordinates alone do not keep play inside the board; but when every in-bounds
border cell is a wall and the boxes and the player start strictly inside the
border, every sequence of unit moves succeeds and keeps every box coordinate
and the player position within `[0, width) × [0, height)`. -/
theorem sokoban_C2_amended_bounds (data : List (List Char)) (l : List (Int × Int))
    (p0 : Int × Int)
    (hu : ∀ d ∈ l, isUnitDir d)
    (hbw : borderWalled (SokobanModel.init data))
    (hboxes : ∀ b ∈ (SokobanModel.init data).boxes, strictInside (SokobanModel.init data) b)
    (hp : (SokobanModel.init data).player = some p0)
    (hpin : strictInside (SokobanModel.init data) p0) :
    ∃ m', (SokobanModel.init data).moves l = some m' ∧
      (∀ b ∈ m'.boxes, inBounds m' b) ∧
      ∃ p, m'.player = some p ∧ inBounds m' p := by
  obtain ⟨m', hm, _, hb', p, hpp, hps⟩ :=
    moves_bounds l (SokobanModel.init data) hu hbw hboxes ⟨p0, hp, hpin⟩
  exact ⟨m', hm, fun b hb2 => strictInside_inBounds _ _ (hb' b hb2),
    ⟨p, hpp, strictInside_inBounds _ _ hps⟩⟩

/-- Witness for the amended C2 on a walled 3-by-3 level. -/
theorem sokoban_C2_amended_bounds_witness :
    ∃ m', (SokobanModel.init
        [['#', '#', '#'], ['#', '@', '#'], ['#', '#', '#']]).moves [(1, 0)] = some m' ∧
      (∀ b ∈ m'.boxes, inBounds m' b) ∧
      ∃ p, m'.player = some p ∧ inBounds m' p :=
  sokoban_C2_amended_bounds [['#', '#', '#'], ['#', '@', '#'], ['#', '#', '#']]
    [(1, 0)] (1, 1) (by decide) (by decide) (by decide) (by decide) (by decide)

/-- Counterexample to C3 as stated: `row.strip()` removes leading whitespace
too, so on the single row made of a space and `#` the wall lands at column 0,
not at column 1 where the trailing-only-stripped row has its `#`. -/
theorem sokoban_C3_counterexample :
    (pyRstrip [' ', '#'])[1]? = some '#' ∧
    ((1 : Int), (0 : Int)) ∉ (SokobanModel.init [[' ', '#']]).walls ∧
    ((0 : Int), (0 : Int)) ∈ (SokobanModel.init [[' ', '#']]).walls := by
  decide

/-- Claim C3, amended.  The parser classifies the character at index `x` of
each row with BOTH leading and trailing whitespace removed (Python `strip()`)
at coordinate `(x, y)`: wall, box and goal membership of the parsed board are
exactly described by the characters of the fully stripped rows, so trailing
whitespace never shifts a column but leading whitespace does. -/
theorem sokoban_C3_amended_strip (data : List (List Char)) (p : Int × Int) :
    (p ∈ (SokobanModel.init data).walls ↔
      ∃ x y : Nat, charAt data x y = some '#' ∧ p = ((x : Int), (y : Int))) ∧
    (p ∈ (SokobanModel.init data).boxes ↔
      ∃ x y : Nat, ∃ c, charAt data x y = some c ∧ (c = '$' ∨ c = '*') ∧
        p = ((x : Int), (y : Int))) ∧
    (p ∈ (SokobanModel.init data).goals ↔
      ∃ x y : Nat, ∃ c, charAt data x y = some c ∧ (c = '*' ∨ c = '+' ∨ c = '.') ∧
        p = ((x : Int), (y : Int))) :=
  ⟨init_walls_mem data p, init_boxes_mem data p, init_goals_mem data p⟩

/-- Witness for the amended C3: the leading space of the row shifts the wall
to column 0. -/
theorem sokoban_C3_amended_strip_witness :
    ((0 : Int), (0 : Int)) ∈ (SokobanModel.init [[' ', '#']]).walls :=
  (sokoban_C3_amended_strip [[' ', '#']] (0, 0)).1.mpr ⟨0, 0, by decide, by decide⟩

theorem lastPlayerRow_eq_none (y : Nat) :
    ∀ (row : List Char) (x : Nat),
      (∀ (i : Nat) (c : Char), row[i]? = some c → ¬(c = '@' ∨ c = '+')) →
      lastPlayerRow y x row = none := by
  intro row
  induction row with
  | nil => intro x h; rfl
  | cons c0 rest ih =>
    intro x h
    rw [show lastPlayerRow y x (c0 :: rest)
        = orElseOpt (lastPlayerRow y (x + 1) rest)
            (if c0 = '@' ∨ c0 = '+' then some ((x : Int), (y : Int)) else none) from rfl]
    rw [ih (x + 1) (fun i c hi => h (i + 1) c (by simpa using hi))]
    rw [if_neg (h 0 c0 (by simp)), orElseOpt_none]

theorem lastPlayerRows_eq_none :
    ∀ (rows : List (List Char)) (y : Nat),
      (∀ (j : Nat) (r : List Char) (i : Nat) (c : Char),
        rows[j]? = some r → (pyStrip r)[i]? = some c →
        ¬(c = '@' ∨ c = '+')) →
      lastPlayerRows y rows = none := by
  intro rows
  induction rows with
  | nil => intro y h; rfl
  | cons r0 rest ih =>
    intro y h
    rw [show lastPlayerRows y (r0 :: rest)
        = orElseOpt (lastPlayerRows (y + 1) rest) (lastPlayerRow y 0 (pyStrip r0)) from rfl]
    rw [ih (y + 1) (fun j r i c hj hi => h (j + 1) r i c (by simpa using hj) hi)]
    rw [lastPlayerRow_eq_none y (pyStrip r0) 0 (fun i c hi => h 0 r0 i c (by simp) hi),
      orElseOpt_none]

theorem lastPlayerRow_eq_some (y : Nat) :
    ∀ (row : List Char) (x i : Nat) (c : Char),
      row[i]? = some c → (c = '@' ∨ c = '+') →
      (∀ i2 c2, i < i2 → row[i2]? = some c2 → ¬(c2 = '@' ∨ c2 = '+')) →
      lastPlayerRow y x row = some (((x + i : Nat) : Int), (y : Int)) := by
  intro row
  induction row with
  | nil => intro x i c hi; exact absurd hi (by simp)
  | cons c0 rest ih =>
    intro x i c hi hc hlater
    rw [show lastPlayerRow y x (c0 :: rest)
        = orElseOpt (lastPlayerRow y (x + 1) rest)
            (if c0 = '@' ∨ c0 = '+' then some ((x : Int), (y : Int)) else none) from rfl]
    cases i with
    | zero =>
      rw [List.getElem?_cons_zero] at hi
      obtain rfl := Option.some.inj hi
      rw [lastPlayerRow_eq_none y rest (x + 1)
        (fun i2 c2 hi2 => hlater (i2 + 1) c2 (by omega) (by simpa using hi2))]
      rw [orElseOpt_none, if_pos hc, Nat.add_zero]
    | succ i2 =>
      rw [List.getElem?_cons_succ] at hi
      rw [ih (x + 1) i2 c hi hc
        (fun i3 c3 hlt hi3 => hlater (i3 + 1) c3 (by omega) (by simpa using hi3))]
      rw [orElseOpt_some, show x + 1 + i2 = x + (i2 + 1) from by omega]

theorem lastPlayerRows_eq_some :
    ∀ (rows : List (List Char)) (y j i : Nat) (r : List Char) (c : Char),
      rows[j]? = some r → (pyStrip r)[i]? = some c → (c = '@' ∨ c = '+') →
      (∀ (j2 i2 : Nat) (r2 : List Char) (c2 : Char), rows[j2]? = some r2 →
        (pyStrip r2)[i2]? = some c2 → (c2 = '@' ∨ c2 = '+') →
        (j2 < j ∨ (j2 = j ∧ i2 ≤ i))) →
      lastPlayerRows y rows = some ((i : Int), ((y + j : Nat) : Int)) := by
  intro rows
  induction rows with
  | nil => intro y j i r c hj; exact absurd hj (by simp)
  | cons r0 rest ih =>
    intro y j i r c hj hi hc hlater
    rw [show lastPlayerRows y (r0 :: rest)
        = orElseOpt (lastPlayerRows (y + 1) rest) (lastPlayerRow y 0 (pyStrip r0)) from rfl]
    cases j with
    | zero =>
      rw [List.getElem?_cons_zero] at hj
      obtain rfl := Option.some.inj hj
      have hnone : lastPlayerRows (y + 1) rest = none := by
        apply lastPlayerRows_eq_none
        intro j2 r2 i2 c2 hj2 hi2 hc2
        rcases hlater (j2 + 1) i2 r2 c2 (by simpa using hj2) hi2 hc2 with hlt | ⟨heq, _⟩ <;>
          omega
      have hrow := lastPlayerRow_eq_some y (pyStrip r0) 0 i c hi hc
        (fun i2 c2 hlt hi2 => by
          intro hc2
          rcases hlater 0 i2 r0 c2 (by simp) hi2 hc2 with hlt0 | ⟨_, hle⟩ <;> omega)
      rw [hnone, orElseOpt_none, hrow, show (0 : Nat) + i = i from by omega, Nat.add_zero]
    | succ j2 =>
      rw [List.getElem?_cons_succ] at hj
      have hrest := ih (y + 1) j2 i r c hj hi hc (fun j3 i3 r3 c3 hj3 hi3 hc3 => by
        rcases hlater (j3 + 1) i3 r3 c3 (by simpa using hj3) hi3 hc3 with hlt | ⟨heq, hle⟩
        · left; omega
        · right; exact ⟨by omega, hle⟩)
      rw [hrest, orElseOpt_some, show y + 1 + j2 = y + (j2 + 1) from by omega]

theorem getD_eq_of_getElem (data : List (List Char)) (j : Nat) (r : List Char)
    (h : data[j]? = some r) : data.getD j [] = r := by
  rw [List.getD_eq_getElem?_getD, h]
  rfl

theorem charAt_lt (data : List (List Char)) (x y : Nat) (c : Char)
    (h : charAt data x y = some c) :
    y < data.length ∧ x < (pyStrip (data.getD y [])).length := by
  unfold charAt at h
  cases hy : data[y]? with
  | none => rw [hy] at h; exact absurd h (by simp)
  | some r =>
    rw [hy] at h
    have h2 : (pyStrip r)[x]? = some c := h
    constructor
    · by_contra hge
      rw [List.getElem?_eq_none (by omega)] at hy
      exact absurd hy (by simp)
    · rw [getD_eq_of_getElem data y r hy]
      by_contra hge
      rw [List.getElem?_eq_none (by omega)] at h2
      exact absurd h2 (by simp)

/-- Claim C10.  With several player symbols in the input, the parser keeps the
last one in row-major order as the player position; every player-symbol cell
is recorded in no set (it acts as floor), except that a `+` cell still joins
the goal set. -/
theorem sokoban_C10_last_player_wins (data : List (List Char)) (x y : Nat) (c : Char)
    (hc : charAt data x y = some c) (hcp : c = '@' ∨ c = '+')
    (hlast : ∀ y2 < data.length, ∀ x2 < (pyStrip (data.getD y2 [])).length,
      (charAt data x2 y2 = some '@' ∨ charAt data x2 y2 = some '+') →
      (y2 < y ∨ (y2 = y ∧ x2 ≤ x))) :
    (SokobanModel.init data).player = some ((x : Int), (y : Int)) ∧
    (∀ (a b : Nat) (c2 : Char), charAt data a b = some c2 → (c2 = '@' ∨ c2 = '+') →
      (((a : Int), (b : Int)) ∉ (SokobanModel.init data).walls ∧
       ((a : Int), (b : Int)) ∉ (SokobanModel.init data).boxes ∧
       (c2 = '@' → ((a : Int), (b : Int)) ∉ (SokobanModel.init data).goals) ∧
       (c2 = '+' → ((a : Int), (b : Int)) ∈ (SokobanModel.init data).goals))) := by
  constructor
  · rw [init_player]
    cases hy : data[y]? with
    | none =>
      unfold charAt at hc; rw [hy] at hc; exact absurd hc (by simp)
    | some r =>
      have hir : (pyStrip r)[x]? = some c := by
        unfold charAt at hc; rw [hy] at hc; exact hc
      have hmain := lastPlayerRows_eq_some data 0 y x r c hy hir hcp (by
        intro j2 i2 r2 c2 hj2 hi2 hc2
        have hcA : charAt data i2 j2 = some c2 := by
          unfold charAt; rw [hj2]; exact hi2
        have hbounds := charAt_lt data i2 j2 c2 hcA
        have hstep := hlast j2 hbounds.1 i2 hbounds.2
        rcases hc2 with rfl | rfl
        · exact hstep (Or.inl hcA)
        · exact hstep (Or.inr hcA))
      rwa [Nat.zero_add] at hmain
  · intro a b c2 hcA hc2
    refine ⟨?_, ?_, ?_, ?_⟩
    · intro hIn
      rw [init_walls_mem] at hIn
      obtain ⟨a', b', hc', heq⟩ := hIn
      obtain ⟨rfl, rfl⟩ := natPair_inj heq
      obtain rfl := Option.some.inj (hcA.symm.trans hc')
      rcases hc2 with h | h <;> exact absurd h (by decide)
    · intro hIn
      rw [init_boxes_mem] at hIn
      obtain ⟨a', b', c3, hc', hcc, heq⟩ := hIn
      obtain ⟨rfl, rfl⟩ := natPair_inj heq
      obtain rfl := Option.some.inj (hcA.symm.trans hc')
      rcases hc2 with h | h <;> rcases hcc with h2 | h2 <;>
        exact absurd (h.symm.trans h2) (by decide)
    · intro hc2eq hIn
      subst hc2eq
      rw [init_goals_mem] at hIn
      obtain ⟨a', b', c3, hc', hcc, heq⟩ := hIn
      obtain ⟨rfl, rfl⟩ := natPair_inj heq
      obtain rfl := Option.some.inj (hcA.symm.trans hc')
      rcases hcc with h2 | h2 | h2 <;> exact absurd h2 (by decide)
    · intro hc2eq
      subst hc2eq
      rw [init_goals_mem]
      exact ⟨a, b, '+', hcA, Or.inr (Or.inl rfl), rfl⟩

/-- Witness for C10 on `+-@`: the later `@` wins the player position. -/
theorem sokoban_C10_last_player_wins_witness :
    (SokobanModel.init [['+', '-', '@']]).player = some ((2 : Int), (0 : Int)) :=
  (sokoban_C10_last_player_wins [['+', '-', '@']] 2 0 '@'
    (by decide) (by decide) (by decide)).1

end Sokoban
